import Mathlib

/-!
Verification of the InPort metadata update script (`InPort_Update.py`).

The development shallowly embeds the script's per-record XML transform
(abstract link stripping, use-limit truncation, thumbnail removal,
distribution-info upsert), the catalog-id extraction, and the
fetch/transform/publish record loop, and proves the specification's claims
about them.
-/

/-- An `xml.etree.ElementTree` element: tag, attributes, text, tail and the
list of child elements. -/
inductive XML : Type where
  | elem (tag : String) (attrib : List (String × String))
         (text : Option String) (tail : Option String)
         (children : List XML)
deriving Repr

namespace XML

/-- Structural induction for `XML` with the nested child list exposed as a
membership hypothesis. -/
def ind {P : XML → Prop}
    (h : ∀ t a tx tl cs, (∀ c, c ∈ cs → P c) → P (XML.elem t a tx tl cs)) :
    ∀ x, P x
  | .elem t a tx tl cs => h t a tx tl cs (fun c _ => ind h c)

end XML

mutual

/-- Structural equality test for elements. -/
def XML.beq : XML → XML → Bool
  | .elem t a tx tl cs, .elem t' a' tx' tl' cs' =>
    t == t' && a == a' && tx == tx' && tl == tl' && XML.beqList cs cs'

/-- Structural equality test for child lists. -/
def XML.beqList : List XML → List XML → Bool
  | [], [] => true
  | c :: cs, d :: ds => XML.beq c d && XML.beqList cs ds
  | [], _ :: _ => false
  | _ :: _, [] => false

end

theorem XML.beqList_iff (cs : List XML)
    (ih : ∀ c, c ∈ cs → ∀ y, XML.beq c y = true ↔ c = y) :
    ∀ ds, XML.beqList cs ds = true ↔ cs = ds := by
  induction cs with
  | nil => intro ds; cases ds <;> simp [XML.beqList]
  | cons c cs ihl =>
    intro ds
    cases ds with
    | nil => simp [XML.beqList]
    | cons d ds =>
      have hc := ih c (by simp)
      have hrest := ihl (fun x hx => ih x (by simp [hx])) ds
      simp [XML.beqList, hc, hrest]

theorem XML.beq_iff : ∀ x y : XML, XML.beq x y = true ↔ x = y := by
  intro x
  induction x using XML.ind with
  | h t a tx tl cs ih =>
    intro y
    cases y with
    | elem t' a' tx' tl' cs' =>
      have hl := XML.beqList_iff cs ih cs'
      simp [XML.beq, hl]
      tauto

instance : DecidableEq XML := fun a b =>
  decidable_of_iff (XML.beq a b = true) (XML.beq_iff a b)

namespace XML

def tag : XML → String
  | .elem t _ _ _ _ => t

def attrib : XML → List (String × String)
  | .elem _ a _ _ _ => a

def text : XML → Option String
  | .elem _ _ tx _ _ => tx

def tailText : XML → Option String
  | .elem _ _ _ tl _ => tl

def children : XML → List XML
  | .elem _ _ _ _ cs => cs

def withChildren (f : List XML → List XML) : XML → XML
  | .elem t a tx tl cs => .elem t a tx tl (f cs)

def withText (tx' : Option String) : XML → XML
  | .elem t a _ tl cs => .elem t a tx' tl cs

end XML

/-- Python's `str.endswith`, on code points. -/
def strEndsWith (s suff : String) : Bool :=
  List.isSuffixOf suff.data s.data

/-- Python's ASCII whitespace for `\s` (the script's strings are ASCII). -/
def isPySpace (c : Char) : Bool :=
  c == ' ' || c == '\t' || c == '\n' || c == '\r' || c == '\x0b' || c == '\x0c'

/-- Case-insensitive character comparison, for `re.IGNORECASE`. -/
def lcEq (a b : Char) : Bool :=
  a.toLower == b.toLower

/-- Consume the pattern characters case-insensitively from the front of the
input; `some rest` on success. -/
def matchCI (pat : List Char) (l : List Char) : Option (List Char) :=
  match pat, l with
  | [], rest => some rest
  | _ :: _, [] => none
  | p :: ps, c :: cs => if lcEq p c then matchCI ps cs else none

/-- Scan to just past the first case-insensitive `</a>`; `none` if absent.
This is the lazy `.*?</a>` of the abstract-stripping regex (with `re.DOTALL`,
`.` also crosses newlines, hence a plain scan over all characters). -/
def findCloseA : List Char → Option (List Char)
  | [] => none
  | c :: cs =>
    match matchCI ['<', '/', 'a', '>'] (c :: cs) with
    | some rest => some rest
    | none => findCloseA cs

/-- The optional `<br\s*/?>` of the regex: consume it if present, otherwise
return the input unchanged. -/
def matchBr (l : List Char) : List Char :=
  match matchCI ['<', 'b', 'r'] l with
  | none => l
  | some r =>
    match r.dropWhile isPySpace with
    | '/' :: '>' :: r2 => r2
    | '>' :: r2 => r2
    | _ => l

/-- One `<a\s+href="[^"]*">.*?</a>\s*(?:<br\s*/?>)?\s*` unit of the
abstract-stripping regex; `some rest` consumes it from the front. -/
def matchUnit (l : List Char) : Option (List Char) :=
  match matchCI ['<', 'a'] l with
  | none => none
  | some r1 =>
    match r1 with
    | [] => none
    | c1 :: _ =>
      if isPySpace c1 then
        match matchCI ['h', 'r', 'e', 'f', '=', '"'] (r1.dropWhile isPySpace) with
        | none => none
        | some r3 =>
          match r3.dropWhile (fun c => c != '"') with
          | '"' :: '>' :: r5 =>
            match findCloseA r5 with
            | none => none
            | some r6 => some ((matchBr (r6.dropWhile isPySpace)).dropWhile isPySpace)
          | _ => none
      else none

/-- Greedily consume further anchor units (the `+` of the regex), with fuel
bounding the number of units. -/
def matchUnitsAux : Nat → List Char → List Char
  | 0, l => l
  | n + 1, l =>
    match matchUnit l with
    | none => l
    | some r => matchUnitsAux n r

/-- The script's abstract edit:
`re.sub(r'(^\s*(?:<p>)?\s*)(?:<a\s+href="[^"]*">.*?</a>\s*(?:<br\s*/?>)?\s*)+',
r'\1', text, flags=re.IGNORECASE | re.DOTALL)`.
The pattern is anchored at the start, so at most one match exists; group 1
(leading whitespace and an optional `<p>` tag) is kept, the run of anchor
units is dropped. -/
def stripLeadingLinks (s : String) : String :=
  let l := s.data
  let ws1 := l.takeWhile isPySpace
  let r1 := l.dropWhile isPySpace
  let pr :=
    match matchCI ['<', 'p', '>'] r1 with
    | some r => (r1.take 3, r)
    | none => (([] : List Char), r1)
  let ws2 := pr.2.takeWhile isPySpace
  let r3 := pr.2.dropWhile isPySpace
  match matchUnit r3 with
  | none => s
  | some r4 => ⟨ws1 ++ pr.1 ++ ws2 ++ matchUnitsAux r4.length r4⟩

/-- The script's use-limit edit applied to a present text:
`limit_node.text[:267] + '.'`. -/
def truncateUseLimit (s : String) : String :=
  ⟨s.data.take 267 ++ ['.']⟩

/-- Python truthiness guard `if node.text:` around a text edit: `None` and
the empty string are left untouched. -/
def truthyMap (f : String → String) : Option String → Option String
  | none => none
  | some s => if s = "" then some s else some (f s)

/-- Digit run to a number, as Python `int` on the captured group. -/
def digitsToNat (l : List Char) : Nat :=
  l.foldl (fun n c => n * 10 + (c.toNat - 48)) 0

/-- Try `/item/(\d+)` at the current position: the literal marker followed by
one or more digits (greedy). -/
def tryMarker (l : List Char) : Option Nat :=
  if l.take 6 = ['/', 'i', 't', 'e', 'm', '/'] then
    match (l.drop 6).takeWhile Char.isDigit with
    | [] => none
    | d :: ds => some (digitsToNat (d :: ds))
  else none

/-- `re.search`: try the pattern at each position, left to right. -/
def scanItem : List Char → Option Nat
  | [] => none
  | c :: cs =>
    match tryMarker (c :: cs) with
    | some n => some n
    | none => scanItem cs

/-- The script's `re.search(r'/item/(\d+)', link)` and `int(id_match.group(1))`:
the digits after the first `/item/` marker followed by at least one digit,
or absence. -/
def extractCatalogId (link : String) : Option Nat :=
  scanItem link.data

/-- Text rewrite applied at `.//dataIdInfo/idAbs` nodes: the node's tag is
`idAbs` and its parent (head of the ancestor-tag list, which excludes the
root) is `dataIdInfo`. -/
def absEdit (fA : Option String → Option String) (anc : List String)
    (t : String) (tx : Option String) : Option String :=
  if anc.headD "" = "dataIdInfo" ∧ t = "idAbs" then fA tx else tx

/-- Text rewrite applied at `.//dataIdInfo/resConst/Consts/useLimit` nodes:
the node's tag is `useLimit` and its three nearest ancestors (root excluded)
are `Consts`, `resConst`, `dataIdInfo`. -/
def ulEdit (fU : Option String → Option String) (anc : List String)
    (t : String) (tx : Option String) : Option String :=
  if anc.take 3 = ["Consts", "resConst", "dataIdInfo"] ∧ t = "useLimit" then fU tx else tx

mutual

/-- One pass over a subtree rewriting the texts of the two designated
`findall` target families; `anc` lists the tags of the ancestors up to but
excluding the document root (so root-level nodes carry `anc = []`, matching
the descendant-only `.//` axis). -/
def mapTexts (fA fU : Option String → Option String) (anc : List String) : XML → XML
  | .elem t a tx tl cs =>
    .elem t a (ulEdit fU anc t (absEdit fA anc t tx)) tl
      (mapTextsList fA fU (t :: anc) cs)

/-- `mapTexts` over a child list. -/
def mapTextsList (fA fU : Option String → Option String) (anc : List String) :
    List XML → List XML
  | [] => []
  | c :: cs => mapTexts fA fU anc c :: mapTextsList fA fU anc cs

end

/-- The abstract edit loop:
`for abstract_node in root.findall(".//dataIdInfo/idAbs"): if abstract_node.text:
abstract_node.text = re.sub(..., abstract_node.text, ...)`. -/
def editAbstracts (root : XML) : XML :=
  root.withChildren (mapTextsList (truthyMap stripLeadingLinks) id [])

/-- The use-limit edit loop:
`for limit_node in root.findall(".//dataIdInfo/resConst/Consts/useLimit"):
if limit_node.text: limit_node.text = limit_node.text[:267] + '.'`. -/
def editUseLimits (root : XML) : XML :=
  root.withChildren (mapTextsList id (truthyMap truncateUseLimit) [])

mutual

/-- Whether some element of `child.iter()` (the element itself or any
descendant) has a tag ending in `Thumbnail`. -/
def hasThumbTag : XML → Bool
  | .elem t _ _ _ cs => strEndsWith t "Thumbnail" || hasThumbTagList cs

/-- `hasThumbTag` over a child list. -/
def hasThumbTagList : List XML → Bool
  | [] => false
  | c :: cs => hasThumbTag c || hasThumbTagList cs

end

/-- The removal condition of the thumbnail loop: a direct child whose tag
ends in `Binary` containing (in `child.iter()`) a tag ending in `Thumbnail`. -/
def binaryThumb (c : XML) : Bool :=
  strEndsWith c.tag "Binary" && hasThumbTag c

/-- `list.remove(x)`: drop the first occurrence of the element. -/
def eraseFirst (target : XML) : List XML → List XML
  | [] => []
  | c :: cs => if c = target then cs else c :: eraseFirst target cs

/-- The thumbnail loop body: iterate over the snapshot `list(root)`, and for
each matching child remove its first occurrence from the current child list
(the inner `break` only ends that child's descendant scan). -/
def removeThumbLoop : List XML → List XML → List XML
  | [], cur => cur
  | c :: rest, cur =>
    removeThumbLoop rest (if binaryThumb c then eraseFirst c cur else cur)

/-- The thumbnail removal step:
`for child in list(root): if child.tag.endswith("Binary"): for grandchild in
child.iter(): if grandchild.tag.endswith("Thumbnail"): root.remove(child); break`. -/
def removeThumbnailBlock (root : XML) : XML :=
  root.withChildren (fun cs => removeThumbLoop cs cs)

/-- `ET.SubElement(parent, tag)`: a fresh empty element. -/
def newElem (t : String) : XML :=
  .elem t [] none none []

/-- `parent.find(tag)` over a child list: the first direct child with the
given tag. -/
def findChild (t : String) (cs : List XML) : Option XML :=
  cs.find? (fun c => c.tag == t)

/-- The get-or-create step used at every level of the distribution-info
upsert: modify the first child with the given tag, appending a fresh element
first when none exists (`find` then `ET.SubElement` when `None`). -/
def upsertChild (t : String) (f : XML → XML) : List XML → List XML
  | [] => [f (newElem t)]
  | c :: cs => if c.tag == t then f c :: cs else c :: upsertChild t f cs

/-- The `distTranOps/onLineSrc/linkage` arm of the upsert, ending with
`linkage.text = str(rest_url)`. -/
def upsertLinkage (restUrl : String) : List XML → List XML :=
  upsertChild "distTranOps" (XML.withChildren
    (upsertChild "onLineSrc" (XML.withChildren
      (upsertChild "linkage" (XML.withText (some restUrl))))))

/-- The `distFormat/formatName` arm of the upsert, ending with
`format_name.text = formatName`. -/
def upsertFormat (formatName : String) : List XML → List XML :=
  upsertChild "distFormat" (XML.withChildren
    (upsertChild "formatName" (XML.withText (some formatName))))

/-- The distribution-info section of the script: get-or-create `distInfo`,
then inside it the `distTranOps/onLineSrc/linkage` chain (overwriting the
linkage text with the REST URL) and the sibling `distFormat/formatName`
(overwriting its text with the format name). -/
def upsertDistributionInfo (root : XML) (restUrl formatName : String) : XML :=
  root.withChildren (upsertChild "distInfo" (XML.withChildren
    (fun dcs => upsertFormat formatName (upsertLinkage restUrl dcs))))

/-- The whole XML edit section of the per-record loop, in source order:
abstract strip, use-limit truncation, thumbnail removal, distribution-info
upsert with the fixed format name `"ESRI REST Service"`. -/
def transformDoc (root : XML) (restUrl : String) : XML :=
  upsertDistributionInfo
    (removeThumbnailBlock (editUseLimits (editAbstracts root)))
    restUrl "ESRI REST Service"

/-- One row of the subsetted dataframe: the fields the loop body reads. -/
structure SourceRecord where
  fileId : String
  restUrl : String
  surveyName : String
  link : String
deriving DecidableEq, Repr

/-- Result of an HTTP call: a raised transport exception, or a response with
status code and body text. -/
inductive HttpResult where
  | transportError (msg : String)
  | response (status : Nat) (body : String)
deriving DecidableEq, Repr

/-- The external collaborators of the loop: the AGOL fetch keyed by file id,
the XML parser (`none` models a raising `ET.fromstring`), the InPort publish
POST taking the session id, catalog id and the edited document, and the
session-acquisition endpoint. -/
structure Env where
  fetch : String → HttpResult
  parse : String → Option XML
  publish : Option String → Nat → XML → HttpResult
  sessionUrl : Option String
  sessionPost : HttpResult
  sessionJson : String → Option String

/-- Per-record outcome, named after the specification's taxonomy; which
constructor results is decided by where the script's control flow lands
(`continue` after a non-200 fetch, `continue` after a missing id, the
`except` handler, or fall-through after the publish POST). -/
inductive Outcome where
  | success (publishStatus : Nat)
  | skippedFetch (status : Nat)
  | skippedNoId
  | fetchError (msg : String)
  | transformError (msg : String)
  | publishError (msg : String)
deriving DecidableEq, Repr

/-- Observable steps of one record's processing, in execution order. -/
inductive REvent where
  | fetched (status : Nat)
  | parsedDoc
  | editedAbstract
  | editedUseLimits
  | scannedThumbnails
  | editedDistInfo
  | idExtracted (id : Option Nat)
  | publishCalled (session : Option String) (catId : Nat)
deriving DecidableEq, Repr

/-- The fixed event run emitted by the four document edits, which always
complete once parsing has succeeded. -/
def editEvents : List REvent :=
  [.editedAbstract, .editedUseLimits, .scannedThumbnails, .editedDistInfo]

/-- One iteration of the `for index, row in df_subset.iterrows()` body:
fetch, non-200 skip, parse, the four edits, id extraction with its skip, and
the publish POST; a fetch transport exception or a parse failure falls to the
per-record `except` handler. The publish response's own status is only
logged: any returned response yields `success`. -/
def runRecord (e : Env) (session : Option String) (r : SourceRecord) :
    Outcome × List REvent :=
  match e.fetch r.fileId with
  | .transportError m => (.fetchError m, [])
  | .response st body =>
    if st = 200 then
      match e.parse body with
      | none => (.transformError "malformed document", [.fetched st])
      | some root =>
        let doc := transformDoc root r.restUrl
        match extractCatalogId r.link with
        | none => (.skippedNoId, .fetched st :: .parsedDoc :: editEvents ++ [.idExtracted none])
        | some catId =>
          match e.publish session catId doc with
          | .transportError m =>
            (.publishError m,
              .fetched st :: .parsedDoc :: editEvents
                ++ [.idExtracted (some catId), .publishCalled session catId])
          | .response pst _ =>
            (.success pst,
              .fetched st :: .parsedDoc :: editEvents
                ++ [.idExtracted (some catId), .publishCalled session catId])
    else (.skippedFetch st, [.fetched st])

/-- The session-acquisition block: skipped when the endpoint is unset,
`raise_for_status` turns a 4xx/5xx response into a caught exception, and the
session id is read from the JSON body; on every failure path the initial
`session_id = None` survives. -/
def acquireSession (e : Env) : Option String :=
  match e.sessionUrl with
  | none => none
  | some _ =>
    match e.sessionPost with
    | .transportError _ => none
    | .response st body => if 400 ≤ st then none else e.sessionJson body

/-- The whole batch: acquire the session once, then run the loop body over
the records in order; every iteration ends in `continue` or the `except`
handler, so each input record yields exactly one outcome. -/
def runBatch (e : Env) (rs : List SourceRecord) : List (Outcome × List REvent) :=
  rs.map (runRecord e (acquireSession e))

mutual

/-- Number of elements with the given tag in a subtree. -/
def countTag (t : String) : XML → Nat
  | .elem tg _ _ _ cs => (if tg == t then 1 else 0) + countTagList t cs

/-- `countTag` summed over a child list. -/
def countTagList (t : String) : List XML → Nat
  | [] => 0
  | c :: cs => countTag t c + countTagList t cs

end

/-- The transfer-options linkage leaf:
`distInfo/distTranOps/onLineSrc/linkage` by first-child lookup. -/
def linkageNode (root : XML) : Option XML :=
  (findChild "distInfo" root.children).bind fun di =>
    (findChild "distTranOps" di.children).bind fun tr =>
      (findChild "onLineSrc" tr.children).bind fun os =>
        findChild "linkage" os.children

/-- The format-name leaf: `distInfo/distFormat/formatName` by first-child
lookup. -/
def formatNameNode (root : XML) : Option XML :=
  (findChild "distInfo" root.children).bind fun di =>
    (findChild "distFormat" di.children).bind fun df =>
      findChild "formatName" df.children

/-- The abstract leaf of the small end-to-end documents used below:
first `dataIdInfo` child, then its first `idAbs` child. -/
def abstractNode (root : XML) : Option XML :=
  (findChild "dataIdInfo" root.children).bind fun di =>
    findChild "idAbs" di.children

/-- A root child survives the transform untouched iff it is not a removed
thumbnail container and not the (possibly rewritten) `distInfo` element. -/
def outsideTargets (c : XML) : Bool :=
  !binaryThumb c && !(c.tag == "distInfo")

/-- The frame mask: keep exactly the parts of a document the transform is
not allowed to change — drop removable thumbnail containers and the
`distInfo` child, and blank the texts at the two designated `findall`
families — leaving every other tag, attribute, text and tail in place. -/
def maskTargets (root : XML) : XML :=
  root.withChildren (fun cs =>
    mapTextsList (fun _ => none) (fun _ => none) [] (cs.filter outsideTargets))

theorem XML.tag_withChildren (f : List XML → List XML) (x : XML) :
    (x.withChildren f).tag = x.tag := by
  cases x; rfl

theorem XML.tag_withText (tx : Option String) (x : XML) :
    (x.withText tx).tag = x.tag := by
  cases x; rfl

theorem XML.children_withChildren (f : List XML → List XML) (x : XML) :
    (x.withChildren f).children = f x.children := by
  cases x; rfl

theorem XML.text_withText (tx : Option String) (x : XML) :
    (x.withText tx).text = tx := by
  cases x; rfl

theorem XML.withChildren_eq_self (f : List XML → List XML) (x : XML)
    (h : f x.children = x.children) : x.withChildren f = x := by
  cases x with
  | elem t a tx tl cs => simpa [XML.withChildren, XML.children] using congrArg (XML.elem t a tx tl) h

theorem XML.withText_eq_self (tx : Option String) (x : XML)
    (h : x.text = tx) : x.withText tx = x := by
  cases x with
  | elem t a tx0 tl cs =>
    simp [XML.text] at h
    simp [XML.withText, h]

theorem tag_newElem (t : String) : (newElem t).tag = t := rfl

theorem findChild_upsertChild_self (t : String) (f : XML → XML)
    (hf : ∀ x, (f x).tag = x.tag) (cs : List XML) :
    findChild t (upsertChild t f cs) =
      some (f ((findChild t cs).getD (newElem t))) := by
  induction cs with
  | nil => simp [findChild, upsertChild, List.find?, hf, tag_newElem]
  | cons c cs ih =>
    by_cases h : c.tag = t
    · simp [findChild, upsertChild, List.find?, h, hf]
    · have h' : (c.tag == t) = false := by simp [h]
      simp [findChild, upsertChild, List.find?, h'] at ih ⊢
      exact ih

theorem findChild_upsertChild_other (t t' : String) (hne : t' ≠ t)
    (f : XML → XML) (hf : ∀ x, (f x).tag = x.tag) (cs : List XML) :
    findChild t' (upsertChild t f cs) = findChild t' cs := by
  have hbt : (t == t') = false := beq_eq_false_iff_ne.mpr (Ne.symm hne)
  induction cs with
  | nil =>
    have h1 : ((f (newElem t)).tag == t') = false := by
      rw [hf, tag_newElem]; exact hbt
    simp [findChild, upsertChild, List.find?, h1]
  | cons c cs ih =>
    by_cases h : c.tag = t
    · have h1 : ((f c).tag == t') = false := by rw [hf c, h]; exact hbt
      have h2 : (c.tag == t') = false := by rw [h]; exact hbt
      have hb : (c.tag == t) = true := by rw [h]; exact beq_self_eq_true t
      simp [findChild, upsertChild, List.find?, hb, h1, h2]
    · have h' : (c.tag == t) = false := by simp [h]
      simp only [findChild, upsertChild, h', Bool.false_eq_true, if_false, List.find?]
      cases hc : c.tag == t'
      · simpa [findChild, List.find?, hc] using ih
      · rfl

theorem upsertChild_of_found (t : String) (f : XML → XML) (cs : List XML)
    (c : XML) (h : findChild t cs = some c) (hfc : f c = c) :
    upsertChild t f cs = cs := by
  induction cs with
  | nil => simp [findChild, List.find?] at h
  | cons c0 cs ih =>
    by_cases h0 : c0.tag = t
    · have hb : (c0.tag == t) = true := by rw [h0]; exact beq_self_eq_true t
      simp [findChild, List.find?, hb] at h
      subst h
      simp [upsertChild, hb, hfc]
    · have h' : (c0.tag == t) = false := by simp [h0]
      simp [findChild, List.find?, h'] at h ih
      simp [upsertChild, h', ih h]

theorem upsertChild_of_none (t : String) (f : XML → XML) (cs : List XML)
    (h : findChild t cs = none) :
    upsertChild t f cs = cs ++ [f (newElem t)] := by
  induction cs with
  | nil => rfl
  | cons c0 cs ih =>
    by_cases h0 : c0.tag = t
    · have hb : (c0.tag == t) = true := by rw [h0]; exact beq_self_eq_true t
      simp [findChild, List.find?, hb] at h
    · have h' : (c0.tag == t) = false := by simp [h0]
      simp [findChild, List.find?, h'] at h ih
      simp [upsertChild, h', ih h]

/-- A document in which the distribution-info upsert finds every level
already present with the target leaf texts already written. -/
def Settled (url fmt : String) (root : XML) : Prop :=
  (∃ lk, linkageNode root = some lk ∧ lk.text = some url) ∧
  (∃ fn, formatNameNode root = some fn ∧ fn.text = some fmt)

theorem tag_pres_withChildren (f : List XML → List XML) :
    ∀ x : XML, (XML.withChildren f x).tag = x.tag :=
  fun x => XML.tag_withChildren f x

theorem settled_upsertDistributionInfo (root : XML) (url fmt : String) :
    Settled url fmt (upsertDistributionInfo root url fmt) := by
  have hfF := tag_pres_withChildren (fun dcs => upsertFormat fmt (upsertLinkage url dcs))
  have hfG := tag_pres_withChildren (upsertChild "onLineSrc"
    (XML.withChildren (upsertChild "linkage" (XML.withText (some url)))))
  have hfH := tag_pres_withChildren (upsertChild "linkage" (XML.withText (some url)))
  have hfFmt := tag_pres_withChildren (upsertChild "formatName" (XML.withText (some fmt)))
  have hW : ∀ x : XML, (XML.withText (some url) x).tag = x.tag :=
    fun x => XML.tag_withText _ x
  have hWf : ∀ x : XML, (XML.withText (some fmt) x).tag = x.tag :=
    fun x => XML.tag_withText _ x
  have hdi := findChild_upsertChild_self "distInfo"
    (XML.withChildren (fun dcs => upsertFormat fmt (upsertLinkage url dcs))) hfF root.children
  simp only [upsertFormat, upsertLinkage] at hdi
  constructor
  · simp only [linkageNode, upsertDistributionInfo, XML.children_withChildren, hdi,
      Option.some_bind, upsertFormat,
      findChild_upsertChild_other "distFormat" "distTranOps" (by decide) _ hfFmt,
      upsertLinkage, findChild_upsertChild_self "distTranOps" _ hfG,
      findChild_upsertChild_self "onLineSrc" _ hfH,
      findChild_upsertChild_self "linkage" _ hW]
    exact ⟨_, rfl, XML.text_withText _ _⟩
  · simp only [formatNameNode, upsertDistributionInfo, XML.children_withChildren, hdi,
      Option.some_bind, upsertFormat, upsertLinkage,
      findChild_upsertChild_self "distFormat" _ hfFmt,
      findChild_upsertChild_self "formatName" _ hWf]
    exact ⟨_, rfl, XML.text_withText _ _⟩

theorem upsertDistributionInfo_of_settled (root : XML) (url fmt : String)
    (h : Settled url fmt root) : upsertDistributionInfo root url fmt = root := by
  obtain ⟨⟨lk, hlk, hlkt⟩, ⟨fn, hfn, hfnt⟩⟩ := h
  rw [linkageNode] at hlk
  rw [formatNameNode] at hfn
  rcases hdi : findChild "distInfo" root.children with _ | di
  · rw [hdi, Option.none_bind] at hlk; exact absurd hlk (by simp)
  rw [hdi, Option.some_bind] at hlk hfn
  rcases htr : findChild "distTranOps" di.children with _ | tr
  · rw [htr, Option.none_bind] at hlk; exact absurd hlk (by simp)
  rw [htr, Option.some_bind] at hlk
  rcases hos : findChild "onLineSrc" tr.children with _ | os
  · rw [hos, Option.none_bind] at hlk; exact absurd hlk (by simp)
  rw [hos, Option.some_bind] at hlk
  rcases hdf : findChild "distFormat" di.children with _ | df
  · rw [hdf, Option.none_bind] at hfn; exact absurd hfn (by simp)
  rw [hdf, Option.some_bind] at hfn
  have hlkfix : XML.withText (some url) lk = lk := XML.withText_eq_self _ _ hlkt
  have hfnfix : XML.withText (some fmt) fn = fn := XML.withText_eq_self _ _ hfnt
  have hosfix : upsertChild "linkage" (XML.withText (some url)) os.children = os.children :=
    upsertChild_of_found _ _ _ _ hlk hlkfix
  have htrfix :
      upsertChild "onLineSrc"
        (XML.withChildren (upsertChild "linkage" (XML.withText (some url)))) tr.children
        = tr.children :=
    upsertChild_of_found _ _ _ _ hos (XML.withChildren_eq_self _ _ hosfix)
  have hlinkfix : upsertLinkage url di.children = di.children := by
    rw [upsertLinkage]
    exact upsertChild_of_found _ _ _ _ htr (XML.withChildren_eq_self _ _ htrfix)
  have hdffix :
      upsertChild "formatName" (XML.withText (some fmt)) df.children = df.children :=
    upsertChild_of_found _ _ _ _ hfn hfnfix
  have hfmtfix : upsertFormat fmt di.children = di.children := by
    rw [upsertFormat]
    exact upsertChild_of_found _ _ _ _ hdf (XML.withChildren_eq_self _ _ hdffix)
  have hdifix :
      XML.withChildren (fun dcs => upsertFormat fmt (upsertLinkage url dcs)) di = di := by
    apply XML.withChildren_eq_self
    rw [hlinkfix, hfmtfix]
  rw [upsertDistributionInfo]
  apply XML.withChildren_eq_self
  exact upsertChild_of_found _ _ _ _ hdi hdifix

/-- The distribution-info subtree built by the upsert when `distInfo` is
absent: every level is freshly created and the two leaf texts are written. -/
def freshDistInfo (url fmt : String) : XML :=
  .elem "distInfo" [] none none
    [.elem "distTranOps" [] none none
      [.elem "onLineSrc" [] none none
        [.elem "linkage" [] (some url) none []]],
     .elem "distFormat" [] none none
      [.elem "formatName" [] (some fmt) none []]]

theorem upsertDistributionInfo_children_of_none (root : XML) (url fmt : String)
    (h : findChild "distInfo" root.children = none) :
    (upsertDistributionInfo root url fmt).children
      = root.children ++ [freshDistInfo url fmt] := by
  rw [upsertDistributionInfo, XML.children_withChildren, upsertChild_of_none _ _ _ h]
  rfl

theorem findChild_append_of_none (t : String) (cs : List XML) (x : XML)
    (h : findChild t cs = none) (hx : x.tag = t) :
    findChild t (cs ++ [x]) = some x := by
  induction cs with
  | nil => simp [findChild, List.find?, hx]
  | cons c0 cs ih =>
    by_cases h0 : c0.tag = t
    · have hb : (c0.tag == t) = true := by rw [h0]; exact beq_self_eq_true t
      simp [findChild, List.find?, hb] at h
    · have h' : (c0.tag == t) = false := by simp [h0]
      simp [findChild, List.find?, h'] at h ih ⊢
      exact ih h

theorem countTag_freshDistInfo_linkage (url fmt : String) :
    countTag "linkage" (freshDistInfo url fmt) = 1 := by
  simp [freshDistInfo, countTag, countTagList]

theorem countTag_freshDistInfo_formatName (url fmt : String) :
    countTag "formatName" (freshDistInfo url fmt) = 1 := by
  simp [freshDistInfo, countTag, countTagList]

theorem eraseFirst_append_of_notin (c : XML) (pre l : List XML) (h : c ∉ pre) :
    eraseFirst c (pre ++ c :: l) = pre ++ l := by
  induction pre with
  | nil => simp [eraseFirst]
  | cons p ps ih =>
    have hp : ¬p = c := fun hpc => h (by simp [hpc])
    have hrest : c ∉ ps := fun hmem => h (by simp [hmem])
    simp [eraseFirst, hp, ih hrest]

theorem removeThumbLoop_eq_filter (l : List XML) :
    ∀ pre : List XML, (∀ p ∈ pre, binaryThumb p = false) →
      removeThumbLoop l (pre ++ l) = pre ++ l.filter (fun c => !binaryThumb c) := by
  induction l with
  | nil => intro pre _; simp [removeThumbLoop]
  | cons c rest ih =>
    intro pre hpre
    by_cases hc : binaryThumb c
    · have hnotin : c ∉ pre := fun hmem => by
        have h1 := hpre c hmem
        rw [hc] at h1
        cases h1
      rw [removeThumbLoop, if_pos hc, eraseFirst_append_of_notin c pre rest hnotin]
      rw [ih pre hpre]
      simp [List.filter_cons, hc]
    · have hc' : binaryThumb c = false := by simp [hc]
      have hpre' : ∀ p ∈ pre ++ [c], binaryThumb p = false := by
        intro p hp
        rcases List.mem_append.mp hp with h1 | h1
        · exact hpre p h1
        · simp at h1; rw [h1]; exact hc'
      have := ih (pre ++ [c]) hpre'
      rw [removeThumbLoop, if_neg hc]
      calc removeThumbLoop rest (pre ++ c :: rest)
      _ = removeThumbLoop rest ((pre ++ [c]) ++ rest) := by simp
      _ = (pre ++ [c]) ++ rest.filter (fun c => !binaryThumb c) := this
      _ = pre ++ (c :: rest).filter (fun c => !binaryThumb c) := by
        simp [List.filter_cons, hc']

theorem removeThumbnailBlock_children (root : XML) :
    (removeThumbnailBlock root).children
      = root.children.filter (fun c => !binaryThumb c) := by
  rw [removeThumbnailBlock, XML.children_withChildren]
  simpa using removeThumbLoop_eq_filter root.children [] (by simp)

theorem tag_mapTexts (fA fU : Option String → Option String) (anc : List String)
    (x : XML) : (mapTexts fA fU anc x).tag = x.tag := by
  cases x; rfl

theorem textPipeline (gA gU fA fU : Option String → Option String)
    (anc : List String) (t : String) (tx : Option String) :
    ulEdit gU anc t (absEdit gA anc t (ulEdit fU anc t (absEdit fA anc t tx)))
      = ulEdit (fun o => gU (fU o)) anc t (absEdit (fun o => gA (fA o)) anc t tx) := by
  by_cases hA : anc.headD "" = "dataIdInfo" ∧ t = "idAbs"
  · have hU : ¬(anc.take 3 = ["Consts", "resConst", "dataIdInfo"] ∧ t = "useLimit") := by
      rintro ⟨-, h2⟩
      rw [hA.2] at h2
      exact absurd h2 (by decide)
    simp only [absEdit, ulEdit, if_pos hA, if_neg hU]
  · by_cases hU : anc.take 3 = ["Consts", "resConst", "dataIdInfo"] ∧ t = "useLimit"
    · simp only [absEdit, ulEdit, if_neg hA, if_pos hU]
    · simp only [absEdit, ulEdit, if_neg hA, if_neg hU]

theorem mapTextsList_comp_of (gA gU fA fU : Option String → Option String)
    (cs : List XML)
    (ih : ∀ c ∈ cs, ∀ anc, mapTexts gA gU anc (mapTexts fA fU anc c)
      = mapTexts (fun o => gA (fA o)) (fun o => gU (fU o)) anc c) :
    ∀ anc, mapTextsList gA gU anc (mapTextsList fA fU anc cs)
      = mapTextsList (fun o => gA (fA o)) (fun o => gU (fU o)) anc cs := by
  induction cs with
  | nil => intro anc; rfl
  | cons c cs ihl =>
    intro anc
    rw [mapTextsList, mapTextsList, mapTextsList]
    rw [ih c (by simp) anc, ihl (fun x hx => ih x (by simp [hx]))]

theorem mapTexts_comp (gA gU fA fU : Option String → Option String) :
    ∀ x anc, mapTexts gA gU anc (mapTexts fA fU anc x)
      = mapTexts (fun o => gA (fA o)) (fun o => gU (fU o)) anc x := by
  intro x
  induction x using XML.ind with
  | h t a tx tl cs ih =>
    intro anc
    rw [mapTexts, mapTexts, mapTexts]
    rw [textPipeline, mapTextsList_comp_of gA gU fA fU cs ih]

theorem mapTextsList_comp (gA gU fA fU : Option String → Option String)
    (cs : List XML) (anc : List String) :
    mapTextsList gA gU anc (mapTextsList fA fU anc cs)
      = mapTextsList (fun o => gA (fA o)) (fun o => gU (fU o)) anc cs :=
  mapTextsList_comp_of gA gU fA fU cs (fun c _ => mapTexts_comp gA gU fA fU c) anc

theorem hasThumbTagList_mapTexts (fA fU : Option String → Option String)
    (cs : List XML)
    (ih : ∀ c ∈ cs, ∀ anc, hasThumbTag (mapTexts fA fU anc c) = hasThumbTag c) :
    ∀ anc, hasThumbTagList (mapTextsList fA fU anc cs) = hasThumbTagList cs := by
  induction cs with
  | nil => intro anc; rfl
  | cons c cs ihl =>
    intro anc
    rw [mapTextsList, hasThumbTagList, hasThumbTagList]
    rw [ih c (by simp) anc, ihl (fun x hx => ih x (by simp [hx]))]

theorem hasThumbTag_mapTexts (fA fU : Option String → Option String) :
    ∀ x anc, hasThumbTag (mapTexts fA fU anc x) = hasThumbTag x := by
  intro x
  induction x using XML.ind with
  | h t a tx tl cs ih =>
    intro anc
    rw [mapTexts, hasThumbTag, hasThumbTag]
    rw [hasThumbTagList_mapTexts fA fU cs ih]

theorem binaryThumb_mapTexts (fA fU : Option String → Option String)
    (anc : List String) (x : XML) :
    binaryThumb (mapTexts fA fU anc x) = binaryThumb x := by
  rw [binaryThumb, binaryThumb, tag_mapTexts, hasThumbTag_mapTexts]

theorem outsideTargets_mapTexts (fA fU : Option String → Option String)
    (anc : List String) (x : XML) :
    outsideTargets (mapTexts fA fU anc x) = outsideTargets x := by
  rw [outsideTargets, outsideTargets, tag_mapTexts, binaryThumb_mapTexts]

theorem filter_outside_mapTextsList (fA fU : Option String → Option String)
    (anc : List String) (cs : List XML) :
    (mapTextsList fA fU anc cs).filter outsideTargets
      = mapTextsList fA fU anc (cs.filter outsideTargets) := by
  induction cs with
  | nil => rfl
  | cons c cs ih =>
    rw [mapTextsList, List.filter_cons, List.filter_cons, outsideTargets_mapTexts]
    cases h : outsideTargets c
    · simpa [h] using ih
    · simpa [h, mapTextsList] using ih

theorem filter_filter_outside (cs : List XML) :
    (cs.filter (fun c => !binaryThumb c)).filter outsideTargets
      = cs.filter outsideTargets := by
  induction cs with
  | nil => rfl
  | cons c cs ih =>
    cases hb : binaryThumb c
    · cases ht : c.tag == "distInfo"
      · have ho : outsideTargets c = true := by rw [outsideTargets, hb, ht]; rfl
        simp only [List.filter_cons, hb, ho, Bool.not_false, if_true, ite_true]
        rw [ih]
      · have ho : outsideTargets c = false := by rw [outsideTargets, hb, ht]; rfl
        simp only [List.filter_cons, hb, ho, Bool.not_false, if_true, ite_true,
          Bool.false_eq_true, if_false, ite_false]
        exact ih
    · have ho : outsideTargets c = false := by rw [outsideTargets, hb]; rfl
      simp only [List.filter_cons, hb, ho, Bool.not_true, Bool.false_eq_true,
        if_false, ite_false]
      exact ih

theorem filter_outside_upsertChild (f : XML → XML)
    (hf : ∀ x, (f x).tag = x.tag) (cs : List XML) :
    (upsertChild "distInfo" f cs).filter outsideTargets
      = cs.filter outsideTargets := by
  induction cs with
  | nil =>
    have h1 : outsideTargets (f (newElem "distInfo")) = false := by
      rw [outsideTargets, hf, tag_newElem]
      simp
    simp [upsertChild, List.filter_cons, h1]
  | cons c cs ih =>
    by_cases h : c.tag = "distInfo"
    · have hb : (c.tag == "distInfo") = true := by rw [h]; exact beq_self_eq_true _
      have h1 : outsideTargets (f c) = false := by
        rw [outsideTargets, hf, hb]; simp
      have h2 : outsideTargets c = false := by
        rw [outsideTargets, hb]; simp
      simp [upsertChild, hb, List.filter_cons, h1, h2]
    · have hb : (c.tag == "distInfo") = false := by simp [h]
      rw [upsertChild, if_neg (by simp [hb])]
      rw [List.filter_cons, List.filter_cons]
      cases ho : outsideTargets c
      · simpa using ih
      · simpa using ih

theorem tryMarker_isSome_iff (l : List Char) :
    (tryMarker l).isSome = true ↔
      ∃ d post, l = ['/', 'i', 't', 'e', 'm', '/'] ++ d :: post ∧ d.isDigit = true := by
  constructor
  · intro h
    by_cases h6 : l.take 6 = ['/', 'i', 't', 'e', 'm', '/']
    · rw [tryMarker, if_pos h6] at h
      rcases hdrop : l.drop 6 with _ | ⟨x, xs⟩
      · rw [hdrop] at h
        simp [List.takeWhile] at h
      · cases hx : x.isDigit
        · rw [hdrop, List.takeWhile_cons, hx] at h
          simp at h
        · refine ⟨x, xs, ?_, hx⟩
          rw [← h6, ← hdrop]
          exact (List.take_append_drop 6 l).symm
    · rw [tryMarker, if_neg h6] at h
      simp at h
  · rintro ⟨d, post, rfl, hd⟩
    have h6 : (['/', 'i', 't', 'e', 'm', '/'] ++ d :: post).take 6
        = ['/', 'i', 't', 'e', 'm', '/'] := by
      simp
    have h7 : (['/', 'i', 't', 'e', 'm', '/'] ++ d :: post).drop 6 = d :: post := by
      simp
    rw [tryMarker, if_pos h6, h7, List.takeWhile_cons, hd]
    simp

theorem scanItem_isSome_iff : ∀ l : List Char,
    (scanItem l).isSome = true ↔
      ∃ pre d post, l = pre ++ ['/', 'i', 't', 'e', 'm', '/'] ++ d :: post
        ∧ d.isDigit = true := by
  intro l
  induction l with
  | nil =>
    constructor
    · intro h; simp [scanItem] at h
    · rintro ⟨pre, d, post, h, -⟩
      rcases pre with _ | ⟨p, ps⟩ <;> simp at h
  | cons c cs ih =>
    rw [scanItem]
    cases ht : tryMarker (c :: cs) with
    | some n =>
      simp only [Option.isSome_some, true_iff]
      have := (tryMarker_isSome_iff (c :: cs)).mp (by rw [ht]; rfl)
      obtain ⟨d, post, heq, hd⟩ := this
      exact ⟨[], d, post, by simpa using heq, hd⟩
    | none =>
      rw [ih]
      constructor
      · rintro ⟨pre, d, post, h, hd⟩
        exact ⟨c :: pre, d, post, by rw [List.cons_append, List.cons_append, h], hd⟩
      · rintro ⟨pre, d, post, h, hd⟩
        rcases pre with _ | ⟨p, ps⟩
        · exfalso
          have : (tryMarker (c :: cs)).isSome = true :=
            (tryMarker_isSome_iff (c :: cs)).mpr ⟨d, post, by simpa using h, hd⟩
          rw [ht] at this
          simp at this
        · simp only [List.cons_append, List.cons.injEq] at h
          exact ⟨ps, d, post, h.2, hd⟩

/-- A binary-content container (tag ending in `Binary`) holding a
thumbnail-tagged descendant. -/
def binChild : XML :=
  .elem "Binary" [] none none [.elem "Thumbnail" [] (some "AAAA") none []]

/-- A document with two removable thumbnail containers. -/
def thumbTwiceDoc : XML :=
  .elem "metadata" [] none none [binChild, binChild]

/-- The end-to-end document of the specification's example: an abstract whose
text starts with a paragraph tag and one anchor link. -/
def e2eDoc : XML :=
  .elem "metadata" [] none none
    [.elem "dataIdInfo" [] none none
      [.elem "idAbs" [] (some "<p><a href=\"h\">x</a></p>Real text.") none []]]

/-- A document whose online-source element already carries two linkage
leaves. -/
def dupLinkageDoc : XML :=
  .elem "metadata" [] none none
    [.elem "distInfo" [] none none
      [.elem "distTranOps" [] none none
        [.elem "onLineSrc" [] none none
          [.elem "linkage" [] (some "a") none [],
           .elem "linkage" [] (some "b") none []]]]]

/-- C1 counterexample: on a document with two thumbnail-bearing binary
containers, one call removes both children, so the removal count of the call
is 2 and not at most 1 (the `break` only ends the inner descendant scan, not
the outer loop over the root's children). -/
theorem c1_counterexample :
    ¬ (thumbTwiceDoc.children.length
        ≤ (removeThumbnailBlock thumbTwiceDoc).children.length + 1) := by
  decide

/-- C1 (amended): `removeThumbnailBlock` removes exactly the root-level
binary-content containers that hold a thumbnail-tagged descendant — possibly
several in one call — keeping every other child in order, and is a no-op
when no such container exists. -/
theorem c1_remove_thumbnail (root : XML) :
    (removeThumbnailBlock root).children
        = root.children.filter (fun c => !binaryThumb c) ∧
    ((∀ c ∈ root.children, binaryThumb c = false) → removeThumbnailBlock root = root) := by
  refine ⟨removeThumbnailBlock_children root, fun h => ?_⟩
  have hfilter : root.children.filter (fun c => !binaryThumb c) = root.children :=
    List.filter_eq_self.mpr (fun c hc => by rw [h c hc]; rfl)
  rw [removeThumbnailBlock]
  apply XML.withChildren_eq_self
  calc removeThumbLoop root.children root.children
      = root.children.filter (fun c => !binaryThumb c) := by
        simpa using removeThumbLoop_eq_filter root.children [] (by simp)
    _ = root.children := hfilter

/-- C1 witness: on the two-container document the filter form evaluates, and
a document with no matching container is left unchanged. -/
theorem c1_witness :
    (removeThumbnailBlock thumbTwiceDoc).children
        = thumbTwiceDoc.children.filter (fun c => !binaryThumb c) ∧
    removeThumbnailBlock e2eDoc = e2eDoc :=
  ⟨(c1_remove_thumbnail thumbTwiceDoc).1,
    (c1_remove_thumbnail e2eDoc).2 (by decide)⟩

/-- C2 counterexample: for the specification's example abstract, the
transformed abstract text is not `"Real text."` — the regex substitution
keeps the captured leading `<p>` tag. -/
theorem c2_counterexample :
    ¬ ((abstractNode (transformDoc e2eDoc "https://svc/rest")).map XML.text
        = some (some "Real text.")) := by
  decide

/-- C2 (amended): in the end-to-end run on the example document the
transformed abstract text equals `"<p></p>Real text."` (the leading
paragraph tag is preserved by group 1 of the substitution), the distribution
linkage leaf's text equals the given REST URL, and the catalog id extracted
from `".../item/99"` is `99`. -/
theorem c2_end_to_end :
    (abstractNode (transformDoc e2eDoc "https://svc/rest")).map XML.text
        = some (some "<p></p>Real text.") ∧
    (linkageNode (transformDoc e2eDoc "https://svc/rest")).map XML.text
        = some (some "https://svc/rest") ∧
    extractCatalogId ".../item/99" = some 99 := by
  refine ⟨by decide, by decide, by decide⟩

/-- C3: for a present use-limit text of length at least 267 the edit returns
exactly 268 characters, the first 267 of the input followed by a period; for
a shorter present text it returns the whole input followed by a period. -/
theorem c3_truncate_use_limit (s : String) :
    (267 ≤ s.length →
      (truncateUseLimit s).length = 268 ∧
      truncateUseLimit s = String.mk (s.data.take 267) ++ ".") ∧
    (s.length < 267 → truncateUseLimit s = s ++ ".") := by
  obtain ⟨l⟩ := s
  constructor
  · intro h
    refine ⟨?_, rfl⟩
    show (l.take 267 ++ ['.']).length = 268
    rw [List.length_append, List.length_take]
    have hlen : (267 : Nat) ≤ l.length := h
    simp [Nat.min_eq_left hlen]
  · intro h
    have hle : l.length ≤ 267 := Nat.le_of_lt h
    show String.mk (l.take 267 ++ ['.']) = String.mk l ++ "."
    rw [List.take_of_length_le hle]
    rfl

/-- C5: the extractor returns the digits after the first `/item/` marker as
an integer on the example link, signals absence on a link without the
marker, and in general succeeds exactly when `/item/` followed by a digit
occurs somewhere in the link. -/
theorem c5_extract_catalog_id :
    extractCatalogId "https://x/item/4521" = some 4521 ∧
    extractCatalogId "https://x/noid" = none ∧
    ∀ link : String, (extractCatalogId link).isSome = true ↔
      ∃ pre d post, link.data = pre ++ ['/', 'i', 't', 'e', 'm', '/'] ++ d :: post
        ∧ d.isDigit = true :=
  ⟨by decide, by decide, fun link => scanItem_isSome_iff link.data⟩

/-- C4 counterexample: on a document that already carries two linkage leaves
under the online-source element, applying the upsert twice still leaves two
linkage leaves inside the distribution-info subtree, not exactly one — only
the first is overwritten, the duplicate is never removed. -/
theorem c4_counterexample :
    ¬ (countTag "linkage"
        ((findChild "distInfo"
          (upsertDistributionInfo
            (upsertDistributionInfo dupLinkageDoc "u" "f") "u" "f").children).getD
          (newElem "missing")) = 1) := by
  decide

/-- C4 (amended): the upsert is idempotent for every document — the second
application returns the first application's result unchanged — and the
first-found linkage and format-name leaves hold the latest written texts;
the exactly-one-leaf count holds for documents that do not already carry
duplicate leaves, in particular whenever the `distInfo` child is initially
absent. -/
theorem c4_upsert_idempotent (root : XML) (url fmt : String) :
    upsertDistributionInfo (upsertDistributionInfo root url fmt) url fmt
        = upsertDistributionInfo root url fmt ∧
    (∃ lk, linkageNode (upsertDistributionInfo root url fmt) = some lk ∧
      lk.text = some url) ∧
    (∃ fn, formatNameNode (upsertDistributionInfo root url fmt) = some fn ∧
      fn.text = some fmt) ∧
    (findChild "distInfo" root.children = none →
      findChild "distInfo" (upsertDistributionInfo root url fmt).children
          = some (freshDistInfo url fmt) ∧
      countTag "linkage" (freshDistInfo url fmt) = 1 ∧
      countTag "formatName" (freshDistInfo url fmt) = 1) := by
  have hs := settled_upsertDistributionInfo root url fmt
  refine ⟨upsertDistributionInfo_of_settled _ url fmt hs, hs.1, hs.2, fun h => ?_⟩
  refine ⟨?_, countTag_freshDistInfo_linkage url fmt,
    countTag_freshDistInfo_formatName url fmt⟩
  rw [upsertDistributionInfo_children_of_none root url fmt h]
  exact findChild_append_of_none _ _ _ h rfl

/-- C4 witness: the idempotence and count conclusions evaluated on a
document with no distribution info. -/
theorem c4_witness :
    upsertDistributionInfo (upsertDistributionInfo e2eDoc "u" "f") "u" "f"
        = upsertDistributionInfo e2eDoc "u" "f" ∧
    findChild "distInfo" (upsertDistributionInfo e2eDoc "u" "f").children
        = some (freshDistInfo "u" "f") ∧
    countTag "linkage" (freshDistInfo "u" "f") = 1 :=
  have h := c4_upsert_idempotent e2eDoc "u" "f"
  have h4 := h.2.2.2 (by decide)
  ⟨h.1, h4.1, h4.2.1⟩

/-- An environment whose fetch always returns HTTP 404 and whose session
endpoint is unconfigured. -/
def envFetch404 : Env :=
  ⟨fun _ => .response 404 "", fun _ => none, fun _ _ _ => .transportError "down",
    none, .transportError "down", fun _ => none⟩

/-- An empty document used as a parse result in the pipeline fixtures. -/
def tinyDoc : XML :=
  .elem "metadata" [] none none []

/-- An environment whose fetch succeeds, whose parser returns `tinyDoc`, and
whose publish endpoint answers with HTTP 500; the session endpoint is
unconfigured. -/
def envPublish500 : Env :=
  ⟨fun _ => .response 200 "xml", fun _ => some tinyDoc,
    fun _ _ _ => .response 500 "rejected", none, .transportError "down", fun _ => none⟩

/-- A record whose catalog link contains an id. -/
def recA : SourceRecord :=
  ⟨"idA", "urlA", "surveyA", "https://x/item/1"⟩

/-- A second record whose catalog link contains an id. -/
def recB : SourceRecord :=
  ⟨"idB", "urlB", "surveyB", "https://x/item/2"⟩

/-- A record whose catalog link has no id marker. -/
def recNoId : SourceRecord :=
  ⟨"idC", "urlC", "surveyC", "https://x/noid"⟩

/-- A two-record batch. -/
def twoRecs : List SourceRecord :=
  [recA, recB]

/-- C6: a record whose fetch returns a non-200 status yields the
`skippedFetch` outcome for that record only, the batch still produces one
outcome per input record, and every record's outcome is computed
independently by the loop body in the supplied order. -/
theorem c6_batch_isolation (e : Env) (rs : List SourceRecord) (k : Nat)
    (r : SourceRecord) (st : Nat) (body : String)
    (hk : rs[k]? = some r)
    (hf : e.fetch r.fileId = .response st body)
    (hst : st ≠ 200) :
    (runBatch e rs)[k]? = some (Outcome.skippedFetch st, [REvent.fetched st]) ∧
    (runBatch e rs).length = rs.length ∧
    (∀ j : Nat, (runBatch e rs)[j]? = (rs[j]?).map (runRecord e (acquireSession e))) := by
  refine ⟨?_, by simp [runBatch], fun j => by simp [runBatch]⟩
  rw [runBatch, List.getElem?_map, hk, Option.map_some']
  simp [runRecord, hf, hst]

/-- C6 witness: in a concrete two-record batch whose fetches return 404, the
first record's outcome is the fetch skip and both records get an outcome. -/
theorem c6_witness :
    (runBatch envFetch404 twoRecs)[0]?
        = some (Outcome.skippedFetch 404, [REvent.fetched 404]) ∧
    (runBatch envFetch404 twoRecs).length = 2 :=
  have h := c6_batch_isolation envFetch404 twoRecs 0 recA 404 "" rfl rfl (by decide)
  ⟨h.1, h.2.1.trans rfl⟩

/-- C7: whenever the publish POST returns a response, the record's outcome
is `success` carrying that response's status — whatever the status code is;
only a transport failure can yield a publish error. -/
theorem c7_publish_response_success (e : Env) (s : Option String)
    (r : SourceRecord) (body : String) (root : XML) (catId : Nat)
    (pst : Nat) (ptext : String)
    (hf : e.fetch r.fileId = .response 200 body)
    (hp : e.parse body = some root)
    (hid : extractCatalogId r.link = some catId)
    (hpub : e.publish s catId (transformDoc root r.restUrl) = .response pst ptext) :
    (runRecord e s r).1 = Outcome.success pst := by
  simp [runRecord, hf, hp, hid, hpub]

/-- C7 witness: a publish endpoint answering HTTP 500 still produces the
`success` outcome. -/
theorem c7_witness :
    (runRecord envPublish500 none recA).1 = Outcome.success 500 :=
  c7_publish_response_success envPublish500 none recA "xml" tinyDoc 1 500
    "rejected" rfl rfl (by decide) rfl

/-- C8: a record whose catalog link has no id marker runs through every
document edit first — the event trace performs all four edits and then the
failed extraction — is skipped with `skippedNoId`, never calls publish, and
that outcome is distinct from the malformed-document outcome. -/
theorem c8_missing_id_late (e : Env) (s : Option String)
    (r : SourceRecord) (body : String) (root : XML)
    (hf : e.fetch r.fileId = .response 200 body)
    (hp : e.parse body = some root)
    (hid : extractCatalogId r.link = none) :
    runRecord e s r = (Outcome.skippedNoId,
      [REvent.fetched 200, REvent.parsedDoc, REvent.editedAbstract,
       REvent.editedUseLimits, REvent.scannedThumbnails, REvent.editedDistInfo,
       REvent.idExtracted none]) ∧
    (∀ sess catId, REvent.publishCalled sess catId ∉ (runRecord e s r).2) ∧
    (∀ m : String, Outcome.skippedNoId ≠ Outcome.transformError m) := by
  have h1 : runRecord e s r = (Outcome.skippedNoId,
      [REvent.fetched 200, REvent.parsedDoc, REvent.editedAbstract,
       REvent.editedUseLimits, REvent.scannedThumbnails, REvent.editedDistInfo,
       REvent.idExtracted none]) := by
    simp [runRecord, hf, hp, hid, editEvents]
  refine ⟨h1, fun sess catId => ?_, fun m => by simp⟩
  rw [h1]
  simp

/-- C8 witness: the conclusion evaluated on a concrete record whose link has
no id marker. -/
theorem c8_witness :
    runRecord envPublish500 none recNoId = (Outcome.skippedNoId,
      [REvent.fetched 200, REvent.parsedDoc, REvent.editedAbstract,
       REvent.editedUseLimits, REvent.scannedThumbnails, REvent.editedDistInfo,
       REvent.idExtracted none]) :=
  (c8_missing_id_late envPublish500 none recNoId "xml" tinyDoc rfl rfl (by decide)).1

theorem runRecord_publish_session (e : Env) (s : Option String)
    (r : SourceRecord) (sess : Option String) (catId : Nat)
    (h : REvent.publishCalled sess catId ∈ (runRecord e s r).2) : sess = s := by
  simp only [runRecord] at h
  cases hfetch : e.fetch r.fileId with
  | transportError m => simp only [hfetch] at h; simp at h
  | response st body =>
    simp only [hfetch] at h
    by_cases hst : st = 200
    · rw [if_pos hst] at h
      cases hparse : e.parse body with
      | none => simp only [hparse] at h; simp at h
      | some root =>
        simp only [hparse] at h
        cases hid : extractCatalogId r.link with
        | none => simp only [hid] at h; simp [editEvents] at h
        | some catId2 =>
          simp only [hid] at h
          cases hpub : e.publish s catId2 (transformDoc root r.restUrl) with
          | transportError m =>
            simp only [hpub] at h
            simp [editEvents] at h
            exact h.1
          | response pst pb =>
            simp only [hpub] at h
            simp [editEvents] at h
            exact h.1
    · rw [if_neg hst] at h
      simp at h

/-- C9: when session acquisition fails — unset endpoint, transport error, or
an error status from `raise_for_status` — the session value is absent, the
batch still produces an outcome for every record, and every publish call of
the run carries that same absent session. -/
theorem c9_absent_session (e : Env) (rs : List SourceRecord)
    (hfail : e.sessionUrl = none ∨ (∃ m, e.sessionPost = .transportError m) ∨
      (∃ st b, e.sessionPost = .response st b ∧ 400 ≤ st)) :
    acquireSession e = none ∧
    (runBatch e rs).length = rs.length ∧
    (∀ p ∈ runBatch e rs, ∀ sess catId,
      REvent.publishCalled sess catId ∈ p.2 → sess = none) := by
  have hs : acquireSession e = none := by
    rcases hfail with h | ⟨m, h⟩ | ⟨st, b, h, hst⟩
    · simp [acquireSession, h]
    · rcases hurl : e.sessionUrl with _ | u
      · simp [acquireSession, hurl]
      · simp [acquireSession, hurl, h]
    · rcases hurl : e.sessionUrl with _ | u
      · simp [acquireSession, hurl]
      · simp [acquireSession, hurl, h, hst]
  refine ⟨hs, by simp [runBatch], ?_⟩
  intro p hp sess catId hev
  rw [runBatch, hs] at hp
  obtain ⟨r, hr, rfl⟩ := List.mem_map.mp hp
  exact runRecord_publish_session e none r sess catId hev

/-- C9 witness: with the session endpoint unconfigured, the session is
absent and the whole two-record batch still runs. -/
theorem c9_witness :
    acquireSession envPublish500 = none ∧
    (runBatch envPublish500 twoRecs).length = 2 :=
  have h := c9_absent_session envPublish500 twoRecs (Or.inl rfl)
  ⟨h.1, h.2.1.trans rfl⟩

/-- C10: the transform changes nothing outside its designated targets —
after blanking the texts of the `.//dataIdInfo/idAbs` and
`.//dataIdInfo/resConst/Consts/useLimit` families and dropping the removable
thumbnail containers and the `distInfo` child, the transformed document is
identical to the original: every other element, attribute, text and tail is
untouched. -/
theorem c10_frame (root : XML) (restUrl : String) :
    maskTargets (transformDoc root restUrl) = maskTargets root := by
  obtain ⟨t, a, tx, tl, cs⟩ := root
  have hfF := tag_pres_withChildren
    (fun dcs => upsertFormat "ESRI REST Service" (upsertLinkage restUrl dcs))
  simp only [transformDoc, editAbstracts, editUseLimits, removeThumbnailBlock,
    upsertDistributionInfo, maskTargets, XML.withChildren, XML.children]
  congr 1
  set L1 := mapTextsList (truthyMap stripLeadingLinks) id [] cs with hL1
  set L2 := mapTextsList id (truthyMap truncateUseLimit) [] L1 with hL2
  have hT : removeThumbLoop L2 L2 = L2.filter (fun c => !binaryThumb c) := by
    simpa using removeThumbLoop_eq_filter L2 [] (by simp)
  rw [hT, filter_outside_upsertChild _ hfF, filter_filter_outside, hL2,
    filter_outside_mapTextsList, hL1, filter_outside_mapTextsList,
    mapTextsList_comp, mapTextsList_comp]

/-- A 300-character use-limit text. -/
def longLimitText : String :=
  ⟨List.replicate 300 'a'⟩

set_option maxRecDepth 4000 in
/-- C3 witness: both truncation branches evaluated at concrete texts. -/
theorem c3_witness :
    (truncateUseLimit longLimitText).length = 268 ∧
    truncateUseLimit "hi" = "hi" ++ "." :=
  ⟨((c3_truncate_use_limit longLimitText).1 (by decide)).1,
    (c3_truncate_use_limit "hi").2 (by decide)⟩
